import Mathlib

/-!
Verification of the accept-encoding header matcher.

This file gives a shallow embedding of the repository's core: the byte-level
lexer (src/lexer2.rs), the fixed-point quality value (src/q_value.rs), the
ASCII case-insensitive byte comparison (src/byte_slice.rs), the encoding
matcher state machine (src/encoding_matcher.rs) and the media-type matcher
state machine (src/mime_type_matcher.rs), together with theorems checking the
natural-language specification against these definitions.

Bytes are modelled as natural numbers, byte slices as lists of naturals, and
the parse cursor as a natural-number offset.  Each Rust loop is embedded as a
structurally recursive function on an explicit fuel argument; the public entry
points supply fuel `input.length + 1`, which is proved sufficient (the
machines advance the cursor on every iteration).  Rust `Result`/`Option`
failures are `PRes.err` / `Option.none`; the `.unwrap()` calls inside the
matchers are modelled by a dedicated `RunOut.panicked` outcome so that
panic-freedom is a provable statement rather than an assumption.
-/

namespace AcceptEncoding

/-- Result of one lexer production: new cursor on success (`ok`), or failure
with the cursor where the parse stopped (`err`), mirroring
`ParseResult<()> = Result<(), ParseError>` plus the mutated `Cursor` of
src/lexer2.rs. -/
inductive PRes where
  | ok : Nat → PRes
  | err : Nat → PRes
deriving DecidableEq

/-- A lexer production: input bytes and cursor in, `PRes` out
(src/lexer2.rs `Fn(&[u8], &mut Cursor) -> ParseResult<()>`). -/
abbrev Parser : Type := List Nat → Nat → PRes

/-- Rust `Cursor::slice`: the sub-slice `&input[a..b]` (src/lexer2.rs lines 33-37). -/
def slice (input : List Nat) (a b : Nat) : List Nat :=
  (input.take b).drop a

/-- Rust `lexer::byte(b)`: consume exactly the byte `b` (src/lexer2.rs lines 39-49). -/
def byte (b : Nat) : Parser := fun input c =>
  match input[c]? with
  | some b2 => if b2 = b then .ok (c + 1) else .err c
  | none => .err c

/-- Loop body of `match_m_n` (src/lexer2.rs lines 51-74): consume bytes
satisfying `pred`, stopping early once `count` reaches `n`.  Returns the final
cursor and count.  The fuel argument only bounds the recursion; with
`input.length + 1` fuel the loop always stops for the source's reasons. -/
def match_m_n_go (pred : Nat → Bool) (n : Nat) (input : List Nat) :
    Nat → Nat → Nat → Nat × Nat
  | 0, c, count => (c, count)
  | fuel + 1, c, count =>
    match input[c]? with
    | some b =>
      if pred b then
        if count + 1 = n then (c + 1, count + 1)
        else match_m_n_go pred n input fuel (c + 1) (count + 1)
      else (c, count)
    | none => (c, count)

/-- Rust `lexer::match_m_n`: between `m` and `n` bytes satisfying `pred`
(src/lexer2.rs lines 51-74). -/
def match_m_n (pred : Nat → Bool) (m n : Nat) : Parser := fun input c =>
  let p := match_m_n_go pred n input (input.length + 1) c 0
  if m ≤ p.2 then .ok p.1 else .err p.1

/-- Loop body of `match_zero_or_more` / `match_one_or_more`
(src/lexer2.rs lines 76-110): advance while `pred` holds. -/
def scan_while_go (pred : Nat → Bool) (input : List Nat) : Nat → Nat → Nat
  | 0, c => c
  | fuel + 1, c =>
    match input[c]? with
    | some b => if pred b then scan_while_go pred input fuel (c + 1) else c
    | none => c

/-- Rust `lexer::match_zero_or_more` (src/lexer2.rs lines 97-110): always succeeds,
returning the cursor after the run of `pred` bytes. -/
def match_zero_or_more (pred : Nat → Bool) (input : List Nat) (c : Nat) : Nat :=
  scan_while_go pred input (input.length + 1) c

/-- Rust `lexer::match_one_or_more` (src/lexer2.rs lines 76-95): like
`match_zero_or_more` but fails (cursor unchanged) when no byte matched. -/
def match_one_or_more (pred : Nat → Bool) : Parser := fun input c =>
  let c2 := match_zero_or_more pred input c
  if c < c2 then .ok c2 else .err c

/-- Rust `lexer::pair` (src/lexer2.rs lines 112-120): run `p1` then `p2`. -/
def pair (p1 p2 : Parser) : Parser := fun input c =>
  match p1 input c with
  | .ok c1 => p2 input c1
  | .err c1 => .err c1

/-- Rust `lexer::opt` (src/lexer2.rs lines 122-135): try `p`, resetting the cursor
on failure. -/
def opt (p : Parser) : Parser := fun input c =>
  match p input c with
  | .ok c1 => .ok c1
  | .err _ => .ok c

/-- Rust `lexer::alt` (src/lexer2.rs lines 137-151): try `p1`; on failure reset the
cursor and try `p2`. -/
def alt (p1 p2 : Parser) : Parser := fun input c =>
  match p1 input c with
  | .ok c1 => .ok c1
  | .err _ => p2 input c

/-- Loop body of `lexer::escaped` (src/lexer2.rs lines 153-183): consume
normal bytes and escape pairs; fail on a non-escapable byte after the escape
character; stop (successfully) at any other byte or end of input. -/
def escaped_go (isNormal : Nat → Bool) (escChar : Nat) (isEscapable : Nat → Bool)
    (input : List Nat) : Nat → Nat → Bool → PRes
  | 0, c, _ => .ok c
  | fuel + 1, c, seenEscape =>
    match input[c]? with
    | none => .ok c
    | some b =>
      if seenEscape then
        if isEscapable b then escaped_go isNormal escChar isEscapable input fuel (c + 1) false
        else .err c
      else if isNormal b then escaped_go isNormal escChar isEscapable input fuel (c + 1) false
      else if b = escChar then escaped_go isNormal escChar isEscapable input fuel (c + 1) true
      else .ok c

/-- Rust `lexer::escaped` (src/lexer2.rs lines 153-183). -/
def escaped (isNormal : Nat → Bool) (escChar : Nat) (isEscapable : Nat → Bool) :
    Parser := fun input c =>
  escaped_go isNormal escChar isEscapable input (input.length + 1) c false

/-- Rust `TCHAR_TABLE` (src/lexer2.rs lines 200-220): the 256-entry token-character
class table. -/
def TCHAR_TABLE : List Bool := [
  false, false, false, false, false, false, false, false, false, false, false, false, false, false, false, false,
  false, false, false, false, false, false, false, false, false, false, false, false, false, false, false, false,
  false, true,  false, true,  true,  true,  true,  true,  false, false, true,  true,  false, true,  true,  false,
  true,  true,  true,  true,  true,  true,  true,  true,  true,  true,  false, false, false, false, false, false,
  false, true,  true,  true,  true,  true,  true,  true,  true,  true,  true,  true,  true,  true,  true,  true,
  true,  true,  true,  true,  true,  true,  true,  true,  true,  true,  true,  false, false, false, true,  true,
  true,  true,  true,  true,  true,  true,  true,  true,  true,  true,  true,  true,  true,  true,  true,  true,
  true,  true,  true,  true,  true,  true,  true,  true,  true,  true,  true,  false, true,  false, true,  false,
  false, false, false, false, false, false, false, false, false, false, false, false, false, false, false, false,
  false, false, false, false, false, false, false, false, false, false, false, false, false, false, false, false,
  false, false, false, false, false, false, false, false, false, false, false, false, false, false, false, false,
  false, false, false, false, false, false, false, false, false, false, false, false, false, false, false, false,
  false, false, false, false, false, false, false, false, false, false, false, false, false, false, false, false,
  false, false, false, false, false, false, false, false, false, false, false, false, false, false, false, false,
  false, false, false, false, false, false, false, false, false, false, false, false, false, false, false, false,
  false, false, false, false, false, false, false, false, false, false, false, false, false, false, false, false]

/-- Rust `is_tchar` (src/lexer2.rs lines 195-198). -/
def is_tchar (b : Nat) : Bool := TCHAR_TABLE.getD b false

/-- Rust `QDTEXT_TABLE` (src/lexer2.rs lines 233-255): quoted-string text bytes. -/
def QDTEXT_TABLE : List Bool := [
  false, false, false, false, false, false, false, false, false, true,  false, false, false, false, false, false,
  false, false, false, false, false, false, false, false, false, false, false, false, false, false, false, false,
  true,  true,  false, true,  true,  true,  true,  true,  true,  true,  true,  true,  true,  true,  true,  true,
  true,  true,  true,  true,  true,  true,  true,  true,  true,  true,  true,  true,  true,  true,  true,  true,
  true,  true,  true,  true,  true,  true,  true,  true,  true,  true,  true,  true,  true,  true,  true,  true,
  true,  true,  true,  true,  true,  true,  true,  true,  true,  true,  true,  true,  false, true,  true,  true,
  true,  true,  true,  true,  true,  true,  true,  true,  true,  true,  true,  true,  true,  true,  true,  true,
  true,  true,  true,  true,  true,  true,  true,  true,  true,  true,  true,  true,  true,  true,  true,  false,
  true,  true,  true,  true,  true,  true,  true,  true,  true,  true,  true,  true,  true,  true,  true,  true,
  true,  true,  true,  true,  true,  true,  true,  true,  true,  true,  true,  true,  true,  true,  true,  true,
  true,  true,  true,  true,  true,  true,  true,  true,  true,  true,  true,  true,  true,  true,  true,  true,
  true,  true,  true,  true,  true,  true,  true,  true,  true,  true,  true,  true,  true,  true,  true,  true,
  true,  true,  true,  true,  true,  true,  true,  true,  true,  true,  true,  true,  true,  true,  true,  true,
  true,  true,  true,  true,  true,  true,  true,  true,  true,  true,  true,  true,  true,  true,  true,  true,
  true,  true,  true,  true,  true,  true,  true,  true,  true,  true,  true,  true,  true,  true,  true,  true,
  true,  true,  true,  true,  true,  true,  true,  true,  true,  true,  true,  true,  true,  true,  true,  true]

/-- Rust `is_qdtext` (src/lexer2.rs lines 228-231). -/
def is_qdtext (b : Nat) : Bool := QDTEXT_TABLE.getD b false

/-- Rust `QUOTED_PAIR_CHAR_TABLE` (src/lexer2.rs lines 262-284): bytes allowed
after a backslash in a quoted string. -/
def QUOTED_PAIR_CHAR_TABLE : List Bool := [
  false, false, false, false, false, false, false, false, false, true,  false, false, false, false, false, false,
  false, false, false, false, false, false, false, false, false, false, false, false, false, false, false, false,
  true,  true,  true,  true,  true,  true,  true,  true,  true,  true,  true,  true,  true,  true,  true,  true,
  true,  true,  true,  true,  true,  true,  true,  true,  true,  true,  true,  true,  true,  true,  true,  true,
  true,  true,  true,  true,  true,  true,  true,  true,  true,  true,  true,  true,  true,  true,  true,  true,
  true,  true,  true,  true,  true,  true,  true,  true,  true,  true,  true,  true,  true,  true,  true,  true,
  true,  true,  true,  true,  true,  true,  true,  true,  true,  true,  true,  true,  true,  true,  true,  true,
  true,  true,  true,  true,  true,  true,  true,  true,  true,  true,  true,  true,  true,  true,  true,  false,
  true,  true,  true,  true,  true,  true,  true,  true,  true,  true,  true,  true,  true,  true,  true,  true,
  true,  true,  true,  true,  true,  true,  true,  true,  true,  true,  true,  true,  true,  true,  true,  true,
  true,  true,  true,  true,  true,  true,  true,  true,  true,  true,  true,  true,  true,  true,  true,  true,
  true,  true,  true,  true,  true,  true,  true,  true,  true,  true,  true,  true,  true,  true,  true,  true,
  true,  true,  true,  true,  true,  true,  true,  true,  true,  true,  true,  true,  true,  true,  true,  true,
  true,  true,  true,  true,  true,  true,  true,  true,  true,  true,  true,  true,  true,  true,  true,  true,
  true,  true,  true,  true,  true,  true,  true,  true,  true,  true,  true,  true,  true,  true,  true,  true,
  true,  true,  true,  true,  true,  true,  true,  true,  true,  true,  true,  true,  true,  true,  true,  true]

/-- Rust `is_quoted_pair_char` (src/lexer2.rs lines 257-260). -/
def is_quoted_pair_char (b : Nat) : Bool := QUOTED_PAIR_CHAR_TABLE.getD b false

/-- Rust `lexer::token` (src/lexer2.rs lines 185-193): one or more tchar bytes.
The matched slice is recovered by the callers via `slice`, as in
src/encoding_matcher.rs. -/
def token : Parser := match_one_or_more is_tchar

/-- Rust `lexer::ows` (src/lexer2.rs lines 286-288): skip spaces and tabs. -/
def ows (input : List Nat) (c : Nat) : Nat :=
  match_zero_or_more (fun b => b == 32 || b == 9) input c

/-- Rust `is_digit` (src/lexer2.rs lines 290-293). -/
def is_digit (b : Nat) : Bool := 48 ≤ b && b ≤ 57

/-- Rust `lexer::quoted_string` (src/lexer2.rs lines 222-226). -/
def quoted_string : Parser := fun input c =>
  match byte 34 input c with
  | .err c1 => .err c1
  | .ok c1 =>
    match escaped is_qdtext 92 is_quoted_pair_char input c1 with
    | .err c2 => .err c2
    | .ok c2 => byte 34 input c2

/-- The grammar part of `lexer::q_value` (src/lexer2.rs lines 295-305):
`("0" ["." 0*3DIGIT]) / ("1" ["." 0*3"0"])`. -/
def q_value_raw : Parser :=
  alt
    (pair (byte 48) (opt (pair (byte 46) (match_m_n is_digit 0 3))))
    (pair (byte 49) (opt (pair (byte 46) (match_m_n (fun b => b == 48) 0 3))))

/-- Rust `QValue` (src/q_value.rs lines 1-4): a quality weight stored as an
integer count of thousandths. -/
structure QValue where
  millis : Nat
deriving DecidableEq

/-- Rust `QValue::from_millis` (src/q_value.rs lines 12-18). -/
def QValue.from_millis (millis : Nat) : Option QValue :=
  if millis ≤ 10 ^ 3 then some ⟨millis⟩ else none

/-- The digit-accumulation loop of `TryFrom<&str> for QValue`
(src/q_value.rs lines 35-43): fold the fractional digits into `millis`,
failing on a non-digit byte. -/
def qv_digits_loop : List Nat → Nat → Option Nat
  | [], acc => some acc
  | b :: bs, acc =>
    if 48 ≤ b ∧ b ≤ 57 then qv_digits_loop bs (acc * 10 + (b - 48))
    else none

/-- Rust `TryFrom<&str> for QValue` (src/q_value.rs lines 21-68), acting on the
string's bytes (the Rust code immediately calls `s.as_bytes()`).  `MAX_LEN`
is `2 + 3 = 5`. -/
def QValue.try_from : List Nat → Option QValue
  | [] => none
  | v@(b :: _) =>
    if b = 48 then
      if (v.length > 1 ∧ v.getD 1 0 ≠ 46) ∨ v.length > 5 then none
      else if v.length > 2 then
        match qv_digits_loop (v.drop 2) 0 with
        | some m => some ⟨m * 10 ^ (5 - v.length)⟩
        | none => none
      else some ⟨0⟩
    else if b = 49 then
      if (v.length > 1 ∧ v.getD 1 0 ≠ 46) ∨ v.length > 5 then none
      else if (v.drop 2).all (fun x => x == 48) then some ⟨1000⟩
      else none
    else none

/-- Rust `byte_eq_ignore_case` (src/byte_slice.rs lines 13-20): equal outright, or
both fold (via `| 0x20`) into the same ASCII lowercase letter. -/
def byte_eq_ignore_case (b1 b2 : Nat) : Bool :=
  b1 == b2 ||
    (decide (97 ≤ b1 ||| 32) && decide (b1 ||| 32 ≤ 122) && (b1 ||| 32 == b2 ||| 32))

/-- Rust `bytes_eq_ignore_case` (src/byte_slice.rs lines 1-11): equal length and
pointwise `byte_eq_ignore_case`. -/
def bytes_eq_ignore_case : List Nat → List Nat → Bool
  | [], [] => true
  | b1 :: r1, b2 :: r2 => byte_eq_ignore_case b1 b2 && bytes_eq_ignore_case r1 r2
  | _, _ => false

/-- Whether a continuation byte of a UTF-8 sequence is in `0x80-0xBF`.
Used to model `str::from_utf8` (Rust std) by the UTF-8 definition. -/
def utf8Cont (b : Nat) : Bool := decide (128 ≤ b) && decide (b ≤ 191)

/-- Scanning loop of the UTF-8 validity check at offset `i`, modelling the
check done by `str::from_utf8` (Rust std) per the UTF-8 specification,
including the overlong, surrogate and `> U+10FFFF` exclusions.  One fuel unit
is spent per encoded scalar, so `input.length + 1` fuel always suffices; on
exhausted fuel the remaining input is declared valid only when empty. -/
def utf8ValidGo (input : List Nat) : Nat → Nat → Bool
  | 0, i => decide (input.length ≤ i)
  | fuel + 1, i =>
    match input[i]? with
    | none => true
    | some b =>
      if b ≤ 127 then utf8ValidGo input fuel (i + 1)
      else if 194 ≤ b ∧ b ≤ 223 then
        match input[i + 1]? with
        | some b1 => utf8Cont b1 && utf8ValidGo input fuel (i + 2)
        | none => false
      else if b = 224 then
        match input[i + 1]?, input[i + 2]? with
        | some b1, some b2 =>
          decide (160 ≤ b1) && decide (b1 ≤ 191) && utf8Cont b2 && utf8ValidGo input fuel (i + 3)
        | _, _ => false
      else if 225 ≤ b ∧ b ≤ 236 then
        match input[i + 1]?, input[i + 2]? with
        | some b1, some b2 => utf8Cont b1 && utf8Cont b2 && utf8ValidGo input fuel (i + 3)
        | _, _ => false
      else if b = 237 then
        match input[i + 1]?, input[i + 2]? with
        | some b1, some b2 =>
          decide (128 ≤ b1) && decide (b1 ≤ 159) && utf8Cont b2 && utf8ValidGo input fuel (i + 3)
        | _, _ => false
      else if 238 ≤ b ∧ b ≤ 239 then
        match input[i + 1]?, input[i + 2]? with
        | some b1, some b2 => utf8Cont b1 && utf8Cont b2 && utf8ValidGo input fuel (i + 3)
        | _, _ => false
      else if b = 240 then
        match input[i + 1]?, input[i + 2]?, input[i + 3]? with
        | some b1, some b2, some b3 =>
          decide (144 ≤ b1) && decide (b1 ≤ 191) && utf8Cont b2 && utf8Cont b3 &&
            utf8ValidGo input fuel (i + 4)
        | _, _, _ => false
      else if 241 ≤ b ∧ b ≤ 243 then
        match input[i + 1]?, input[i + 2]?, input[i + 3]? with
        | some b1, some b2, some b3 =>
          utf8Cont b1 && utf8Cont b2 && utf8Cont b3 && utf8ValidGo input fuel (i + 4)
        | _, _, _ => false
      else if b = 244 then
        match input[i + 1]?, input[i + 2]?, input[i + 3]? with
        | some b1, some b2, some b3 =>
          decide (128 ≤ b1) && decide (b1 ≤ 143) && utf8Cont b2 && utf8Cont b3 &&
            utf8ValidGo input fuel (i + 4)
        | _, _, _ => false
      else false

/-- UTF-8 validity of a byte sequence: the success condition of
`str::from_utf8` (Rust std). -/
def utf8Valid (l : List Nat) : Bool := utf8ValidGo l (l.length + 1) 0

/-- Rust `EncodingMatchType` (src/encoding_matcher.rs lines 116-120); `Wildcard`
is declared before `Exact`, so `Wildcard < Exact` under the derived order. -/
inductive EncodingMatchType where
  | Wildcard
  | Exact
deriving DecidableEq

/-- Declaration-order rank of `EncodingMatchType`, realising Rust's derived
`Ord` on the enum. -/
def EncodingMatchType.rank : EncodingMatchType → Nat
  | .Wildcard => 0
  | .Exact => 1

/-- Rust `EncodingMatch` (src/encoding_matcher.rs lines 122-126). -/
structure EncodingMatch where
  match_type : EncodingMatchType
  q : QValue
deriving DecidableEq

/-- Rust `impl Ord for EncodingMatch` (src/encoding_matcher.rs lines 128-132):
compare `(match_type, q)` lexicographically. -/
def EncodingMatch.cmp (a b : EncodingMatch) : Ordering :=
  (compare a.match_type.rank b.match_type.rank).then (compare a.q.millis b.q.millis)

/-- The derived `Ord` on `Option<EncodingMatch>`: `None` below every `Some`.
This is the order used by `cur_result.gt(&best_result)` in
src/encoding_matcher.rs line 111. -/
def encodingOptCmp : Option EncodingMatch → Option EncodingMatch → Ordering
  | none, none => .eq
  | none, some _ => .lt
  | some _, none => .gt
  | some a, some b => a.cmp b

/-- Rust `may_update_best_result` (src/encoding_matcher.rs lines 107-114): when
`cur > best`, move `cur` into `best` (leaving `cur = None`); otherwise leave
both slots unchanged.  Returns `(cur, best)` after the update. -/
def may_update_best_result (cur best : Option EncodingMatch) :
    Option EncodingMatch × Option EncodingMatch :=
  if encodingOptCmp cur best = .gt then (none, cur) else (cur, best)

def gzipBytes : List Nat := [103, 122, 105, 112]
def xGzipBytes : List Nat := [120, 45, 103, 122, 105, 112]
def compressBytes : List Nat := [99, 111, 109, 112, 114, 101, 115, 115]
def xCompressBytes : List Nat := [120, 45, 99, 111, 109, 112, 114, 101, 115, 115]
def qNameBytes : List Nat := [113]
def starBytes : List Nat := [42]

/-- The classification of a candidate token in `State::SearchingEncoding`
(src/encoding_matcher.rs lines 25-40), with the `is_gzip`/`is_compress`
precomputation of lines 14-15 inlined (both are pure functions of
`encoding`). -/
def classifyEncoding (tok encoding : List Nat) : Option EncodingMatch :=
  if bytes_eq_ignore_case tok encoding
      || (bytes_eq_ignore_case encoding gzipBytes && bytes_eq_ignore_case tok xGzipBytes)
      || (bytes_eq_ignore_case encoding compressBytes && bytes_eq_ignore_case tok xCompressBytes)
  then some ⟨.Exact, ⟨1000⟩⟩
  else if tok == starBytes then some ⟨.Wildcard, ⟨1000⟩⟩
  else none

/-- Rust `State` of the encoding matcher (src/encoding_matcher.rs lines 140-148). -/
inductive EmState where
  | SearchingEncoding
  | SeenEncoding
  | SeenSemicolon
  | SeenParameterName
  | SeenEqual
  | SeenParameterValue
deriving DecidableEq

/-- Outcome of running a matcher state machine: a normal return value
(`finished`), an abort via one of the `return None` arms (`aborted`), a
`.unwrap()` hitting its error branch (`panicked`), or fuel exhaustion of the
embedding (`fuelOut`, proved unreachable for the supplied fuel). -/
inductive RunOut (α : Type) where
  | finished : α → RunOut α
  | aborted : RunOut α
  | panicked : RunOut α
  | fuelOut : RunOut α
deriving DecidableEq

/-- The `while !c.eof(input)` loop of `match_for_encoding`
(src/encoding_matcher.rs lines 19-104), one fuel unit per iteration.  The
final `may_update_best_result` and `best_result.take()` of lines 103-104 are
performed when the cursor reaches end of input.  In `State::SeenEqual` the
slice accepted by the q-value grammar is converted exactly as in line 77:
`QValue::try_from(str::from_utf8(c1.slice(input, c)).unwrap()).unwrap()`,
with either unwrap failing modelled as `panicked` (the same condition also
covers the identical unwraps inside `lexer::q_value`, src/lexer2.rs line
304, which runs on the same slice). -/
def emLoop (input encoding : List Nat) :
    Nat → EmState → Option EncodingMatch → Option EncodingMatch → Bool → Nat →
    RunOut (Option EncodingMatch)
  | 0, _, _, _, _, _ => .fuelOut
  | fuel + 1, st, cur, best, isQ, c =>
    if input.length ≤ c then .finished (may_update_best_result cur best).2
    else
      match st with
      | .SearchingEncoding =>
        match token input c with
        | .err _ => .aborted
        | .ok c1 =>
          emLoop input encoding fuel .SeenEncoding
            (classifyEncoding (slice input c c1) encoding) best isQ c1
      | .SeenEncoding =>
        let c1 := ows input c
        if input.length ≤ c1 then .aborted
        else
          match byte 59 input c1 with
          | .ok c2 => emLoop input encoding fuel .SeenSemicolon cur best isQ (ows input c2)
          | .err _ =>
            match byte 44 input c1 with
            | .ok c2 =>
              let p := may_update_best_result cur best
              emLoop input encoding fuel .SearchingEncoding p.1 p.2 isQ (ows input c2)
            | .err _ => .aborted
      | .SeenSemicolon =>
        match token input c with
        | .err _ => .aborted
        | .ok c1 =>
          emLoop input encoding fuel .SeenParameterName cur best
            (bytes_eq_ignore_case (slice input c c1) qNameBytes) c1
      | .SeenParameterName =>
        match byte 61 input c with
        | .err _ => .aborted
        | .ok c1 => emLoop input encoding fuel .SeenEqual cur best isQ c1
      | .SeenEqual =>
        if isQ then
          match q_value_raw input c with
          | .err _ => .aborted
          | .ok c1 =>
            if utf8Valid (slice input c c1) then
              match QValue.try_from (slice input c c1) with
              | some q =>
                emLoop input encoding fuel .SeenParameterValue
                  (cur.map (fun r => ⟨r.match_type, q⟩)) best isQ c1
              | none => .panicked
            else .panicked
        else
          match alt token quoted_string input c with
          | .err _ => .aborted
          | .ok c1 => emLoop input encoding fuel .SeenParameterValue cur best isQ c1
      | .SeenParameterValue =>
        let c1 := ows input c
        if input.length ≤ c1 then .aborted
        else
          match byte 44 input c1 with
          | .ok c2 =>
            let p := may_update_best_result cur best
            emLoop input encoding fuel .SearchingEncoding p.1 p.2 isQ (ows input c2)
          | .err _ =>
            match byte 59 input c1 with
            | .ok c2 => emLoop input encoding fuel .SeenSemicolon cur best isQ (ows input c2)
            | .err _ => .aborted

/-- Rust `match_for_encoding` (src/encoding_matcher.rs lines 9-105) as a run of
the state machine, with fuel `input.length + 1` (each loop iteration consumes
at least one byte; sufficiency is proved below). -/
def match_for_encoding_run (input encoding : List Nat) : RunOut (Option EncodingMatch) :=
  emLoop input encoding (input.length + 1) .SearchingEncoding none none false 0

/-- The value returned by `match_for_encoding`: both a `return None` abort
and a normal `None` map to `none`.  `panicked`/`fuelOut` also collapse to
`none` here; they are proved unreachable. -/
def match_for_encoding (input encoding : List Nat) : Option EncodingMatch :=
  match match_for_encoding_run input encoding with
  | .finished r => r
  | _ => none

/-- Rust `MimeTypeMatchType` (src/mime_type_matcher.rs lines 21-26), declared in
the order `MainTypeWildcard`, `SubTypeWildcard`, `Exact`. -/
inductive MimeTypeMatchType where
  | MainTypeWildcard
  | SubTypeWildcard
  | Exact
deriving DecidableEq

/-- Declaration-order rank of `MimeTypeMatchType`, realising Rust's derived
`Ord` on the enum. -/
def MimeTypeMatchType.rank : MimeTypeMatchType → Nat
  | .MainTypeWildcard => 0
  | .SubTypeWildcard => 1
  | .Exact => 2

/-- Rust `MimeTypeMatch` (src/mime_type_matcher.rs lines 28-32). -/
structure MimeTypeMatch where
  match_type : MimeTypeMatchType
  q : QValue
deriving DecidableEq

/-- Rust `impl Ord for MimeTypeMatch` (src/mime_type_matcher.rs lines 34-38):
compare `(match_type, q)` lexicographically. -/
def MimeTypeMatch.cmp (a b : MimeTypeMatch) : Ordering :=
  (compare a.match_type.rank b.match_type.rank).then (compare a.q.millis b.q.millis)

/-- The derived `Ord` on `Option<MimeTypeMatch>`: `None` below every `Some`
(used by `MimeTypeMatcher::may_update_best_result`). -/
def mimeOptCmp : Option MimeTypeMatch → Option MimeTypeMatch → Ordering
  | none, none => .eq
  | none, some _ => .lt
  | some _, none => .gt
  | some a, some b => a.cmp b

/-- Rust `MimeTypeMatcher::may_update_best_result`
(src/mime_type_matcher.rs lines 175-179). -/
def mime_may_update_best_result (cur best : Option MimeTypeMatch) :
    Option MimeTypeMatch × Option MimeTypeMatch :=
  if mimeOptCmp cur best = .gt then (none, cur) else (cur, best)

/-- Rust `split_mime_type` (src/mime_type_matcher.rs lines 182-188):
`mime_type.splitn(2, '/')` — the part before the first slash and the
remainder after it; `none` when no slash occurs. -/
def split_mime_type (mime_type : List Nat) : Option (List Nat × List Nat) :=
  let p := mime_type.span (fun b => b != 47)
  match p.2 with
  | [] => none
  | _ :: rest => some (p.1, rest)

/-- Rust `get_mime_type_match_type` (src/mime_type_matcher.rs lines 190-213).
The `*` comparisons are byte-exact (`==`); the others fold ASCII case. -/
def get_mime_type_match_type (main_type subtype want_main_type want_subtype : List Nat) :
    Option MimeTypeMatchType :=
  if main_type == starBytes then
    if subtype == starBytes then some .MainTypeWildcard else none
  else if bytes_eq_ignore_case main_type want_main_type then
    if bytes_eq_ignore_case subtype want_subtype then some .Exact
    else if subtype == starBytes then some .SubTypeWildcard
    else none
  else none

/-- Modelled from the spec: the lexer module imported by
src/mime_type_matcher.rs (`crate::lexer` with `slash`, `LexerToken`,
position-based productions) is not under src/.  Per spec section 4.1 the
`q_value` production matches `("0" ["." 0*3DIGIT]) | ("1" ["." 0*3("0")])`
and returns the fixed-point value; this model reuses the grammar embedding
`q_value_raw` and the textual conversion `QValue.try_from`, agreeing with
both in-repo variants of the lexer (src/lexer2.rs, src/finder.rs). -/
def mime_q_value (input : List Nat) (c : Nat) : Option (QValue × Nat) :=
  match q_value_raw input c with
  | .err _ => none
  | .ok c1 =>
    match QValue.try_from (slice input c c1) with
    | some q => some (q, c1)
    | none => none

/-- Rust `State` of the media-type matcher (src/mime_type_matcher.rs lines 46-56). -/
inductive MtState where
  | SearchingMainType
  | SeenMainType
  | SeenSlash
  | SeenSubType
  | SeenSemicolon
  | SeenParameterName
  | SeenEqual
  | SeenParameterValue
deriving DecidableEq

/-- The `while self.pos < self.value.len()` loop of
`MimeTypeMatcher::match_mime_type` (src/mime_type_matcher.rs lines 77-173).
The single-byte productions `slash`/`comma`/`semicolon`/`equal`, the `token`
production and `ows` of the missing lexer module are modelled from the spec
(section 4.1) as `byte 47/44/59/61`, `token` and `ows`; the generic
parameter value is token-or-quoted-string.  The `cur_main_type.unwrap()` of
line 96 is modelled as `panicked` when no main type was recorded. -/
def mtLoop (input wantMain wantSub : List Nat) :
    Nat → MtState → Option (List Nat) → Option MimeTypeMatch → Option MimeTypeMatch →
    Bool → Nat → RunOut (Option MimeTypeMatch)
  | 0, _, _, _, _, _, _ => .fuelOut
  | fuel + 1, st, curMain, cur, best, isQ, c =>
    if input.length ≤ c then .finished (mime_may_update_best_result cur best).2
    else
      match st with
      | .SearchingMainType =>
        match token input c with
        | .err _ => .aborted
        | .ok c1 =>
          mtLoop input wantMain wantSub fuel .SeenMainType
            (some (slice input c c1)) cur best isQ c1
      | .SeenMainType =>
        match byte 47 input c with
        | .err _ => .aborted
        | .ok c1 => mtLoop input wantMain wantSub fuel .SeenSlash curMain cur best isQ c1
      | .SeenSlash =>
        match token input c with
        | .err _ => .aborted
        | .ok c1 =>
          match curMain with
          | none => .panicked
          | some mt =>
            let cur2 :=
              match get_mime_type_match_type mt (slice input c c1) wantMain wantSub with
              | some mtype => some (⟨mtype, ⟨1000⟩⟩ : MimeTypeMatch)
              | none => cur
            mtLoop input wantMain wantSub fuel .SeenSubType curMain cur2 best isQ c1
      | .SeenSubType =>
        let c1 := ows input c
        match byte 59 input c1 with
        | .ok c2 =>
          mtLoop input wantMain wantSub fuel .SeenSemicolon curMain cur best isQ (ows input c2)
        | .err _ =>
          match byte 44 input c1 with
          | .ok c2 =>
            let p := mime_may_update_best_result cur best
            mtLoop input wantMain wantSub fuel .SearchingMainType curMain p.1 p.2 isQ
              (ows input c2)
          | .err _ => .aborted
      | .SeenSemicolon =>
        match token input c with
        | .err _ => .aborted
        | .ok c1 =>
          mtLoop input wantMain wantSub fuel .SeenParameterName curMain cur best
            (bytes_eq_ignore_case (slice input c c1) qNameBytes) c1
      | .SeenParameterName =>
        match byte 61 input c with
        | .err _ => .aborted
        | .ok c1 => mtLoop input wantMain wantSub fuel .SeenEqual curMain cur best isQ c1
      | .SeenEqual =>
        if isQ then
          match mime_q_value input c with
          | none => .aborted
          | some (q, c1) =>
            mtLoop input wantMain wantSub fuel .SeenParameterValue curMain
              (cur.map (fun r => ⟨r.match_type, q⟩)) best isQ c1
        else
          match alt token quoted_string input c with
          | .err _ => .aborted
          | .ok c1 =>
            mtLoop input wantMain wantSub fuel .SeenParameterValue curMain cur best isQ c1
      | .SeenParameterValue =>
        let c1 := ows input c
        match byte 44 input c1 with
        | .ok c2 =>
          let p := mime_may_update_best_result cur best
          mtLoop input wantMain wantSub fuel .SearchingMainType curMain p.1 p.2 isQ
            (ows input c2)
        | .err _ =>
          match byte 59 input c1 with
          | .ok c2 =>
            mtLoop input wantMain wantSub fuel .SeenSemicolon curMain cur best isQ
              (ows input c2)
          | .err _ => .aborted

/-- Rust `match_for_mime_type` (src/mime_type_matcher.rs lines 9-11 and 69-173)
as a run: split the wanted mime type (returning `none` when it has no
slash), then run the state machine with fuel `input.length + 1`. -/
def match_for_mime_type_run (input mime_type : List Nat) : RunOut (Option MimeTypeMatch) :=
  match split_mime_type mime_type with
  | none => .finished none
  | some p =>
    mtLoop input p.1 p.2 (input.length + 1) .SearchingMainType none none none false 0

/-- The value returned by `match_for_mime_type`; aborts map to `none`,
`panicked`/`fuelOut` are proved unreachable. -/
def match_for_mime_type (input mime_type : List Nat) : Option MimeTypeMatch :=
  match match_for_mime_type_run input mime_type with
  | .finished r => r
  | _ => none

/-! ### Concrete header values used by the spec scenarios (ASCII bytes) -/

def brBytes : List Nat := [98, 114]

/-- The text `gzip` followed by one trailing space. -/
def gzipSpaceBytes : List Nat := [103, 122, 105, 112, 32]

/-- One leading space followed by the text `gzip`. -/
def spaceGzipBytes : List Nat := [32, 103, 122, 105, 112]

/-- The malformed header `gzip; q =0.9` (space before the `=`). -/
def qSpaceHeaderBytes : List Nat := [103, 122, 105, 112, 59, 32, 113, 32, 61, 48, 46, 57]

/-- The header `gzip, @`: a valid alternative followed by a non-tchar byte. -/
def gzipCommaAtBytes : List Nat := [103, 122, 105, 112, 44, 32, 64]

/-- The q-value text `0.8235` (four fractional digits). -/
def qTruncTextBytes : List Nat := [48, 46, 56, 50, 51, 53]

/-- The header `gzip;q=0.8235`. -/
def qTruncHeaderBytes : List Nat := [103, 122, 105, 112, 59, 113, 61, 48, 46, 56, 50, 51, 53]

/-- The header `gzip;q=0.823`. -/
def qTrunc3HeaderBytes : List Nat := [103, 122, 105, 112, 59, 113, 61, 48, 46, 56, 50, 51]

/-- The header `br  ; q=0.9 , gzip;q=0.8`. -/
def c5HeaderBytes : List Nat :=
  [98, 114, 32, 32, 59, 32, 113, 61, 48, 46, 57, 32, 44, 32,
   103, 122, 105, 112, 59, 113, 61, 48, 46, 56]

/-- The header `x-Gzip; q=0.8`. -/
def xGzipHeaderBytes : List Nat := [120, 45, 71, 122, 105, 112, 59, 32, 113, 61, 48, 46, 56]

/-- The header `x-compress ; q=0.8`. -/
def xCompressHeaderBytes : List Nat :=
  [120, 45, 99, 111, 109, 112, 114, 101, 115, 115, 32, 59, 32, 113, 61, 48, 46, 56]

/-- The header `gzip,  br` (whitespace after the comma is skipped). -/
def gzipCommaBrBytes : List Nat := [103, 122, 105, 112, 44, 32, 32, 98, 114]

/-- The Accept header `*/html, image/webp`: the first media range has a
wildcard main type with a non-wildcard subtype. -/
def starHtmlHeaderBytes : List Nat :=
  [42, 47, 104, 116, 109, 108, 44, 32, 105, 109, 97, 103, 101, 47, 119, 101, 98, 112]

/-- The media type `image/webp`. -/
def imageWebpBytes : List Nat := [105, 109, 97, 103, 101, 47, 119, 101, 98, 112]

/-! ### Lexer infrastructure lemmas -/

theorem byte_ok {b : Nat} {input : List Nat} {c c' : Nat}
    (h : byte b input c = .ok c') : input[c]? = some b ∧ c' = c + 1 := by
  unfold byte at h
  split at h
  case h_1 b2 hget =>
    split at h
    case isTrue hbe =>
      cases h
      exact ⟨by rw [hget, hbe], rfl⟩
    case isFalse => exact absurd h (by simp)
  case h_2 => exact absurd h (by simp)

theorem byte_ok_bounds {b : Nat} {input : List Nat} {c c' : Nat}
    (h : byte b input c = .ok c') : c < c' ∧ c' ≤ input.length := by
  obtain ⟨hget, hc⟩ := byte_ok h
  have hlt : c < input.length := (List.getElem?_eq_some.mp hget).1
  omega

theorem scan_while_go_le (pred : Nat → Bool) (input : List Nat) :
    ∀ fuel c, c ≤ scan_while_go pred input fuel c := by
  intro fuel
  induction fuel with
  | zero => intro c; exact le_refl c
  | succ fuel ih =>
    intro c
    rw [scan_while_go]
    split
    · split
      · exact le_trans (Nat.le_succ c) (ih (c + 1))
      · exact le_refl c
    · exact le_refl c

theorem scan_while_go_le_max (pred : Nat → Bool) (input : List Nat) :
    ∀ fuel c, scan_while_go pred input fuel c ≤ max c input.length := by
  intro fuel
  induction fuel with
  | zero => intro c; exact le_max_left c input.length
  | succ fuel ih =>
    intro c
    rw [scan_while_go]
    split
    case h_1 b hget =>
      split
      · have hlt : c < input.length := (List.getElem?_eq_some.mp hget).1
        have := ih (c + 1)
        omega
      · exact le_max_left c input.length
    case h_2 => exact le_max_left c input.length

theorem scan_while_go_consume_all (pred : Nat → Bool) (input : List Nat) :
    ∀ fuel c, c ≤ input.length → input.length ≤ c + fuel →
      (input.drop c).all pred = true →
      scan_while_go pred input fuel c = input.length := by
  intro fuel
  induction fuel with
  | zero =>
    intro c hc hfuel _
    rw [scan_while_go]
    omega
  | succ fuel ih =>
    intro c hc hfuel hall
    rw [scan_while_go]
    split
    case h_1 b hget =>
      have hlt : c < input.length := (List.getElem?_eq_some.mp hget).1
      have hb : input[c] = b := by
        have h2 := List.getElem?_eq_getElem hlt
        rw [h2] at hget
        exact Option.some.inj hget
      have hdrop : input.drop c = b :: input.drop (c + 1) := by
        rw [List.drop_eq_getElem_cons hlt, hb]
      rw [hdrop, List.all_cons] at hall
      obtain ⟨hp, hrest⟩ : pred b = true ∧ (input.drop (c + 1)).all pred = true := by
        simpa using hall
      rw [if_pos hp]
      exact ih (c + 1) hlt (by omega) hrest
    case h_2 hget =>
      have := List.getElem?_eq_none_iff.mp hget
      omega

theorem match_zero_or_more_le (pred : Nat → Bool) (input : List Nat) (c : Nat) :
    c ≤ match_zero_or_more pred input c :=
  scan_while_go_le pred input (input.length + 1) c

theorem match_zero_or_more_le_length (pred : Nat → Bool) (input : List Nat) (c : Nat)
    (h : c ≤ input.length) : match_zero_or_more pred input c ≤ input.length := by
  have := scan_while_go_le_max pred input (input.length + 1) c
  unfold match_zero_or_more
  omega

theorem ows_le (input : List Nat) (c : Nat) : c ≤ ows input c :=
  match_zero_or_more_le _ input c

theorem ows_le_length (input : List Nat) (c : Nat) (h : c ≤ input.length) :
    ows input c ≤ input.length :=
  match_zero_or_more_le_length _ input c h

theorem match_one_or_more_ok_bounds {pred : Nat → Bool} {input : List Nat} {c c' : Nat}
    (h : match_one_or_more pred input c = .ok c') : c < c' ∧ c' ≤ input.length := by
  unfold match_one_or_more match_zero_or_more at h
  simp only at h
  split at h
  case isTrue hlt =>
    cases h
    have hmax := scan_while_go_le_max pred input (input.length + 1) c
    exact ⟨hlt, by omega⟩
  case isFalse => exact absurd h (by simp)

theorem token_ok_bounds {input : List Nat} {c c' : Nat}
    (h : token input c = .ok c') : c < c' ∧ c' ≤ input.length :=
  match_one_or_more_ok_bounds h

theorem escaped_go_ok_bounds (isNormal : Nat → Bool) (escChar : Nat)
    (isEscapable : Nat → Bool) (input : List Nat) :
    ∀ fuel c seen c', escaped_go isNormal escChar isEscapable input fuel c seen = .ok c' →
      c ≤ c' ∧ (c ≤ input.length → c' ≤ input.length) := by
  intro fuel
  induction fuel with
  | zero =>
    intro c seen c' h
    unfold escaped_go at h
    cases h
    exact ⟨le_refl c, fun h => h⟩
  | succ fuel ih =>
    intro c seen c' h
    unfold escaped_go at h
    split at h
    case h_1 => cases h; exact ⟨le_refl c, fun h => h⟩
    case h_2 b hget =>
      have hlt : c < input.length := (List.getElem?_eq_some.mp hget).1
      split at h
      · split at h
        · have := ih (c + 1) false c' h
          exact ⟨by omega, fun _ => this.2 (by omega)⟩
        · exact absurd h (by simp)
      · split at h
        · have := ih (c + 1) false c' h
          exact ⟨by omega, fun _ => this.2 (by omega)⟩
        · split at h
          · have := ih (c + 1) true c' h
            exact ⟨by omega, fun _ => this.2 (by omega)⟩
          · cases h; exact ⟨le_refl c, fun h => h⟩

theorem quoted_string_ok_bounds {input : List Nat} {c c' : Nat}
    (h : quoted_string input c = .ok c') : c < c' ∧ c' ≤ input.length := by
  unfold quoted_string at h
  split at h
  case h_1 => exact absurd h (by simp)
  case h_2 c1 h1 =>
    obtain ⟨h1a, h1b⟩ := byte_ok_bounds h1
    split at h
    case h_1 => exact absurd h (by simp)
    case h_2 c2 h2 =>
      unfold escaped at h2
      have hb2 := escaped_go_ok_bounds is_qdtext 92 is_quoted_pair_char input
        (input.length + 1) c1 false c2 h2
      obtain ⟨h3a, h3b⟩ := byte_ok_bounds h
      have h4 := hb2.1
      omega

theorem alt_token_quoted_ok_bounds {input : List Nat} {c c' : Nat}
    (h : alt token quoted_string input c = .ok c') : c < c' ∧ c' ≤ input.length := by
  unfold alt at h
  split at h
  case h_1 c1 h1 =>
    cases h
    exact token_ok_bounds h1
  case h_2 => exact quoted_string_ok_bounds h

theorem match_m_n_go_le (pred : Nat → Bool) (n : Nat) (input : List Nat) :
    ∀ fuel c count, c ≤ (match_m_n_go pred n input fuel c count).1 := by
  intro fuel
  induction fuel with
  | zero => intro c count; exact le_refl c
  | succ fuel ih =>
    intro c count
    rw [match_m_n_go]
    split
    case h_1 b hget =>
      split
      · split
        · exact Nat.le_succ c
        · exact le_trans (Nat.le_succ c) (ih (c + 1) (count + 1))
      · exact le_refl c
    case h_2 => exact le_refl c

theorem match_m_n_go_le_max (pred : Nat → Bool) (n : Nat) (input : List Nat) :
    ∀ fuel c count, (match_m_n_go pred n input fuel c count).1 ≤ max c input.length := by
  intro fuel
  induction fuel with
  | zero => intro c count; exact le_max_left c input.length
  | succ fuel ih =>
    intro c count
    rw [match_m_n_go]
    split
    case h_1 b hget =>
      have hlt : c < input.length := (List.getElem?_eq_some.mp hget).1
      split
      · split
        · simp only
          omega
        · have := ih (c + 1) (count + 1)
          omega
      · exact le_max_left c input.length
    case h_2 => exact le_max_left c input.length

theorem match_m_n_go_consumed (pred : Nat → Bool) (n : Nat) (input : List Nat) :
    ∀ fuel c count, count < n →
      (match_m_n_go pred n input fuel c count).1 ≤ c + (n - count) := by
  intro fuel
  induction fuel with
  | zero => intro c count h; simp only [match_m_n_go]; omega
  | succ fuel ih =>
    intro c count hcount
    rw [match_m_n_go]
    split
    case h_1 b hget =>
      split
      · split
        case isTrue heq => simp only; omega
        case isFalse hne =>
          have := ih (c + 1) (count + 1) (by omega)
          omega
      · omega
    case h_2 => omega

theorem match_m_n_go_content (pred : Nat → Bool) (n : Nat) (input : List Nat) :
    ∀ fuel c count i x, c ≤ i → i < (match_m_n_go pred n input fuel c count).1 →
      input[i]? = some x → pred x = true := by
  intro fuel
  induction fuel with
  | zero => intro c count i x h1 h2 _; rw [match_m_n_go] at h2; omega
  | succ fuel ih =>
    intro c count i x h1 h2 hget
    rw [match_m_n_go] at h2
    split at h2
    case h_1 b hgetc =>
      split at h2
      case isTrue hp =>
        split at h2
        case isTrue heq =>
          simp only at h2
          have hi : i = c := by omega
          subst hi
          rw [hget] at hgetc
          cases hgetc
          exact hp
        case isFalse hne =>
          by_cases hic : i = c
          · subst hic
            rw [hget] at hgetc
            cases hgetc
            exact hp
          · exact ih (c + 1) (count + 1) i x (by omega) h2 hget
      case isFalse => omega
    case h_2 => omega

theorem match_m_n_zero_ok {pred : Nat → Bool} {n : Nat} {input : List Nat} {c c' : Nat}
    (h : match_m_n pred 0 n input c = .ok c') :
    c' = (match_m_n_go pred n input (input.length + 1) c 0).1 := by
  unfold match_m_n at h
  simp only [Nat.zero_le, if_true] at h
  exact (PRes.ok.inj h).symm

/-! ### Slice lemmas -/

theorem slice_nil {input : List Nat} {a b : Nat} (h : b ≤ a) : slice input a b = [] := by
  unfold slice
  apply List.drop_eq_nil_of_le
  have := List.length_take b input
  omega

theorem slice_cons {input : List Nat} {a b x : Nat} (hx : input[a]? = some x)
    (hab : a + 1 ≤ b) : slice input a b = x :: slice input (a + 1) b := by
  unfold slice
  have ha : a < input.length := (List.getElem?_eq_some.mp hx).1
  have hlen : a < (input.take b).length := by
    rw [List.length_take]
    omega
  rw [List.drop_eq_getElem_cons hlen]
  have h1 : (input.take b)[a]? = input[a]? := List.getElem?_take_of_lt (by omega)
  rw [hx] at h1
  have h2 := List.getElem?_eq_getElem hlen
  rw [h2] at h1
  rw [Option.some.inj h1]

theorem slice_length {input : List Nat} {a b : Nat} (hb : b ≤ input.length) :
    (slice input a b).length = b - a := by
  unfold slice
  rw [List.length_drop, List.length_take]
  omega

theorem slice_forall (P : Nat → Prop) (input : List Nat) :
    ∀ k a b, b ≤ a + k → b ≤ input.length →
      (∀ i x, a ≤ i → i < b → input[i]? = some x → P x) →
      ∀ x ∈ slice input a b, P x := by
  intro k
  induction k with
  | zero =>
    intro a b h1 _ _
    rw [slice_nil (by omega)]
    intro x hx
    exact absurd hx (List.not_mem_nil x)
  | succ k ih =>
    intro a b h1 hb hcontent
    by_cases hab : b ≤ a
    · rw [slice_nil hab]
      intro x hx
      exact absurd hx (List.not_mem_nil x)
    · have ha : a < input.length := by omega
      have hget := List.getElem?_eq_getElem ha
      rw [slice_cons hget (by omega)]
      intro x hx
      rcases List.mem_cons.mp hx with hx1 | hx2
      · subst hx1
        exact hcontent a _ (le_refl a) (by omega) hget
      · exact ih (a + 1) b (by omega) hb
          (fun i y hi1 hi2 hi3 => hcontent i y (by omega) hi2 hi3) x hx2

theorem slice_mem {P : Nat → Prop} {input : List Nat} {a b : Nat}
    (hb : b ≤ input.length)
    (hcontent : ∀ i x, a ≤ i → i < b → input[i]? = some x → P x) :
    ∀ x ∈ slice input a b, P x :=
  slice_forall P input b a b (by omega) hb hcontent

/-! ### QValue textual-grammar lemmas -/

theorem qv_digits_loop_some :
    ∀ (ds : List Nat), (∀ x ∈ ds, 48 ≤ x ∧ x ≤ 57) →
      ∀ acc, ∃ m, qv_digits_loop ds acc = some m := by
  intro ds
  induction ds with
  | nil => intro _ acc; exact ⟨acc, rfl⟩
  | cons b bs ih =>
    intro hall acc
    have hcond : 48 ≤ b ∧ b ≤ 57 := hall b (by simp)
    unfold qv_digits_loop
    rw [if_pos hcond]
    exact ih (fun x hx => hall x (by simp [hx])) _

theorem try_from_zero_frac {ds : List Nat} (hdig : ∀ x ∈ ds, 48 ≤ x ∧ x ≤ 57)
    (hlen : ds.length ≤ 3) : ∃ q, QValue.try_from (48 :: 46 :: ds) = some q := by
  rcases ds with _ | ⟨a, _ | ⟨b, _ | ⟨c, _ | ⟨d, tail⟩⟩⟩⟩
  · exact ⟨⟨0⟩, rfl⟩
  · obtain ⟨ha1, ha2⟩ := hdig a (by simp)
    exact ⟨⟨(a - 48) * 100⟩, by simp [QValue.try_from, qv_digits_loop, ha1, ha2]⟩
  · obtain ⟨ha1, ha2⟩ := hdig a (by simp)
    obtain ⟨hb1, hb2⟩ := hdig b (by simp)
    exact ⟨⟨((a - 48) * 10 + (b - 48)) * 10⟩,
      by simp [QValue.try_from, qv_digits_loop, ha1, ha2, hb1, hb2]⟩
  · obtain ⟨ha1, ha2⟩ := hdig a (by simp)
    obtain ⟨hb1, hb2⟩ := hdig b (by simp)
    obtain ⟨hc1, hc2⟩ := hdig c (by simp)
    exact ⟨⟨((a - 48) * 10 + (b - 48)) * 10 + (c - 48)⟩,
      by simp [QValue.try_from, qv_digits_loop, ha1, ha2, hb1, hb2, hc1, hc2]⟩
  · simp at hlen

theorem try_from_one_frac {zs : List Nat} (h48 : ∀ x ∈ zs, x = 48)
    (hlen : zs.length ≤ 3) : QValue.try_from (49 :: 46 :: zs) = some ⟨1000⟩ := by
  rcases zs with _ | ⟨a, _ | ⟨b, _ | ⟨c, _ | ⟨d, tail⟩⟩⟩⟩
  · rfl
  · rw [h48 a (by simp)]
    rfl
  · rw [h48 a (by simp), h48 b (by simp)]
    rfl
  · rw [h48 a (by simp), h48 b (by simp), h48 c (by simp)]
    rfl
  · simp at hlen

theorem utf8ValidGo_of_ascii (input : List Nat) (hall : ∀ x ∈ input, x ≤ 127) :
    ∀ fuel i, input.length < i + fuel → utf8ValidGo input fuel i = true := by
  intro fuel
  induction fuel with
  | zero =>
    intro i h
    rw [utf8ValidGo]
    simp
    omega
  | succ fuel ih =>
    intro i h
    rw [utf8ValidGo]
    split
    case h_1 => rfl
    case h_2 b hget =>
      have hb : b ≤ 127 := hall b (List.getElem?_mem hget)
      have hlt : i < input.length := (List.getElem?_eq_some.mp hget).1
      rw [if_pos hb]
      exact ih (i + 1) (by omega)

theorem utf8Valid_of_ascii (l : List Nat) (hall : ∀ x ∈ l, x ≤ 127) :
    utf8Valid l = true :=
  utf8ValidGo_of_ascii l hall (l.length + 1) 0 (by omega)

/-- Success analysis of one branch of the q-value grammar
`byte lead` then optionally `"." 0*3(pred)`: either only the leading byte was
consumed, or a dot and at most three `pred` bytes follow it. -/
theorem q_value_pair_ok {input : List Nat} {c c' lead : Nat} {pred : Nat → Bool}
    (h : pair (byte lead) (opt (pair (byte 46) (match_m_n pred 0 3))) input c = .ok c') :
    (input[c]? = some lead ∧ c' = c + 1) ∨
    (input[c]? = some lead ∧ input[c + 1]? = some 46 ∧ c + 2 ≤ c' ∧
      c' ≤ input.length ∧ c' ≤ c + 5 ∧
      (∀ i x, c + 2 ≤ i → i < c' → input[i]? = some x → pred x = true)) := by
  unfold pair at h
  split at h
  case h_2 => exact absurd h (by simp)
  case h_1 c1 h1 =>
    obtain ⟨hglead, hc1⟩ := byte_ok h1
    subst hc1
    unfold opt at h
    simp only [] at h
    split at h
    case h_2 c2 h2 =>
      cases h
      exact Or.inl ⟨hglead, rfl⟩
    case h_1 c2 h2 =>
      cases h
      split at h2
      case h_2 c3 h3 => exact absurd h2 (by simp)
      case h_1 c3 h3 =>
        obtain ⟨hg46, hc3⟩ := byte_ok h3
        subst hc3
        have hc2 := match_m_n_zero_ok h2
        have hle := match_m_n_go_le pred 3 input (input.length + 1) (c + 1 + 1) 0
        have hmax := match_m_n_go_le_max pred 3 input (input.length + 1) (c + 1 + 1) 0
        have hcons := match_m_n_go_consumed pred 3 input (input.length + 1) (c + 1 + 1) 0
          (by omega)
        have hcontent := match_m_n_go_content pred 3 input (input.length + 1) (c + 1 + 1) 0
        have h46lt : c + 1 < input.length := (List.getElem?_eq_some.mp hg46).1
        have hmax2 : max (c + 1 + 1) input.length = input.length :=
          Nat.max_eq_right (by omega)
        rw [hmax2] at hmax
        refine Or.inr ⟨hglead, hg46, by omega, by omega, by omega, ?_⟩
        intro i x hi1 hi2 hi3
        exact hcontent i x (by omega) (by omega) hi3

/-- The two-byte prefix of a q-value slice. -/
theorem q_value_slice_shape {input : List Nat} {c c2 lead : Nat}
    (hg : input[c]? = some lead) (hg46 : input[c + 1]? = some 46)
    (hc2a : c + 2 ≤ c2) :
    slice input c c2 = lead :: 46 :: slice input (c + 2) c2 := by
  rw [slice_cons hg (by omega), slice_cons hg46 (by omega)]

/-- A slice consisting of the single byte at `c`. -/
theorem slice_single {input : List Nat} {c lead : Nat} (hg : input[c]? = some lead) :
    slice input c (c + 1) = [lead] := by
  rw [slice_cons hg (le_refl _), slice_nil (le_refl _)]

/-- Core safety fact behind `match_for_encoding`'s `State::SeenEqual` arm
(src/encoding_matcher.rs line 77) and `lexer::q_value` (src/lexer2.rs line
304): every slice accepted by the q-value grammar is ASCII (hence valid
UTF-8) and within the `QValue` textual grammar, so
`QValue::try_from(str::from_utf8(..).unwrap()).unwrap()` cannot reach either
error branch.  Also gives cursor progress and in-bounds facts. -/
theorem q_value_raw_ok {input : List Nat} {c c' : Nat}
    (h : q_value_raw input c = .ok c') :
    c < c' ∧ c' ≤ input.length ∧
    (∃ q, QValue.try_from (slice input c c') = some q) ∧
    (∀ x ∈ slice input c c', x ≤ 127) := by
  unfold q_value_raw alt at h
  split at h
  case h_1 c1 h1 =>
    cases h
    rcases q_value_pair_ok h1 with ⟨hg, hc⟩ | ⟨hg, hg46, hc2a, hc2b, hc2c, hcontent⟩
    · subst hc
      have hlt : c < input.length := (List.getElem?_eq_some.mp hg).1
      rw [slice_single hg]
      refine ⟨by omega, by omega, ⟨⟨0⟩, rfl⟩, ?_⟩
      intro x hx
      simp at hx
      omega
    · rw [q_value_slice_shape hg hg46 hc2a]
      have hdig : ∀ x ∈ slice input (c + 2) c', 48 ≤ x ∧ x ≤ 57 := by
        refine slice_mem hc2b ?_
        intro i x hi1 hi2 hi3
        have hd := hcontent i x hi1 hi2 hi3
        unfold is_digit at hd
        simpa using hd
      have hlen : (slice input (c + 2) c').length ≤ 3 := by
        rw [slice_length hc2b]
        omega
      obtain ⟨q, hq⟩ := try_from_zero_frac hdig hlen
      refine ⟨by omega, by omega, ⟨q, hq⟩, ?_⟩
      intro x hx
      rcases List.mem_cons.mp hx with hx1 | hx2
      · omega
      rcases List.mem_cons.mp hx2 with hx3 | hx4
      · omega
      have := hdig x hx4
      omega
  case h_2 c1 h1 =>
    rcases q_value_pair_ok h with ⟨hg, hc⟩ | ⟨hg, hg46, hc2a, hc2b, hc2c, hcontent⟩
    · subst hc
      have hlt : c < input.length := (List.getElem?_eq_some.mp hg).1
      rw [slice_single hg]
      refine ⟨by omega, by omega, ⟨⟨1000⟩, rfl⟩, ?_⟩
      intro x hx
      simp at hx
      omega
    · rw [q_value_slice_shape hg hg46 hc2a]
      have h48 : ∀ x ∈ slice input (c + 2) c', x = 48 := by
        refine slice_mem hc2b ?_
        intro i x hi1 hi2 hi3
        have hd := hcontent i x hi1 hi2 hi3
        simpa using hd
      have hlen : (slice input (c + 2) c').length ≤ 3 := by
        rw [slice_length hc2b]
        omega
      have hq := try_from_one_frac h48 hlen
      refine ⟨by omega, by omega, ⟨⟨1000⟩, hq⟩, ?_⟩
      intro x hx
      rcases List.mem_cons.mp hx with hx1 | hx2
      · omega
      rcases List.mem_cons.mp hx2 with hx3 | hx4
      · omega
      have := h48 x hx4
      omega

/-! ### Run analysis of the encoding matcher -/

/-- Every run of the encoding state machine with in-bounds cursor and
sufficient fuel either finishes normally or aborts: it neither panics nor
exhausts its fuel.  The fuel hypothesis is preserved because every loop
iteration advances the cursor by at least one byte. -/
theorem emLoop_cases (input encoding : List Nat) :
    ∀ fuel (st : EmState) (cur best : Option EncodingMatch) (isQ : Bool) (c : Nat),
      c ≤ input.length → input.length < c + fuel →
      (∃ r, emLoop input encoding fuel st cur best isQ c = .finished r) ∨
      emLoop input encoding fuel st cur best isQ c = .aborted := by
  intro fuel
  induction fuel with
  | zero => intro st cur best isQ c hc hfuel; omega
  | succ fuel ih =>
    intro st cur best isQ c hc hfuel
    rw [emLoop.eq_def]
    simp only []
    by_cases heof : input.length ≤ c
    · rw [if_pos heof]
      exact Or.inl ⟨_, rfl⟩
    rw [if_neg heof]
    cases st <;> simp only []
    ·
      split
      next => exact Or.inr rfl
      next c1 htok =>
        obtain ⟨ht1, ht2⟩ := token_ok_bounds htok
        exact ih .SeenEncoding _ best isQ c1 (by omega) (by omega)
    ·
      have howle := ows_le input c
      have howlen := ows_le_length input c (by omega)
      by_cases h1 : input.length ≤ ows input c
      · rw [if_pos h1]
        exact Or.inr rfl
      rw [if_neg h1]
      split
      next c2 hb =>
        obtain ⟨hb1, hb2⟩ := byte_ok_bounds hb
        have ho2 := ows_le input c2
        have ho2l := ows_le_length input c2 (by omega)
        exact ih .SeenSemicolon cur best isQ (ows input c2) (by omega) (by omega)
      next =>
        split
        next c2 hb2 =>
          obtain ⟨hb1, hb2'⟩ := byte_ok_bounds hb2
          have ho2 := ows_le input c2
          have ho2l := ows_le_length input c2 (by omega)
          exact ih .SearchingEncoding _ _ isQ (ows input c2) (by omega) (by omega)
        next => exact Or.inr rfl
    ·
      split
      next => exact Or.inr rfl
      next c1 htok =>
        obtain ⟨ht1, ht2⟩ := token_ok_bounds htok
        exact ih .SeenParameterName cur best _ c1 (by omega) (by omega)
    ·
      split
      next => exact Or.inr rfl
      next c1 hbe =>
        obtain ⟨hb1, hb2⟩ := byte_ok_bounds hbe
        exact ih .SeenEqual cur best isQ c1 (by omega) (by omega)
    ·
      split
      next =>
        split
        next => exact Or.inr rfl
        next c1 hqv =>
          obtain ⟨ha, hb, ⟨q, hq⟩, hascii⟩ := q_value_raw_ok hqv
          rw [if_pos (utf8Valid_of_ascii _ hascii), hq]
          exact ih .SeenParameterValue _ best isQ c1 (by omega) (by omega)
      next =>
        split
        next => exact Or.inr rfl
        next c1 halt =>
          obtain ⟨ha, hb⟩ := alt_token_quoted_ok_bounds halt
          exact ih .SeenParameterValue cur best isQ c1 (by omega) (by omega)
    ·
      have howle := ows_le input c
      have howlen := ows_le_length input c (by omega)
      by_cases h1 : input.length ≤ ows input c
      · rw [if_pos h1]
        exact Or.inr rfl
      rw [if_neg h1]
      split
      next c2 hb =>
        obtain ⟨hb1, hb2⟩ := byte_ok_bounds hb
        have ho2 := ows_le input c2
        have ho2l := ows_le_length input c2 (by omega)
        exact ih .SearchingEncoding _ _ isQ (ows input c2) (by omega) (by omega)
      next =>
        split
        next c2 hb2 =>
          obtain ⟨hb1, hb2'⟩ := byte_ok_bounds hb2
          have ho2 := ows_le input c2
          have ho2l := ows_le_length input c2 (by omega)
          exact ih .SeenSemicolon cur best isQ (ows input c2) (by omega) (by omega)
        next => exact Or.inr rfl

/-! ### Run analysis of the media-type matcher -/

theorem mime_q_value_some_bounds {input : List Nat} {c c1 : Nat} {q : QValue}
    (h : mime_q_value input c = some (q, c1)) : c < c1 ∧ c1 ≤ input.length := by
  unfold mime_q_value at h
  split at h
  case h_1 => exact absurd h (by simp)
  case h_2 c2 hqv =>
    obtain ⟨ha, hb, _, _⟩ := q_value_raw_ok hqv
    split at h
    case h_2 => exact absurd h (by simp)
    case h_1 q2 htf =>
      cases h
      exact ⟨ha, hb⟩

/-- Every run of the media-type state machine with in-bounds cursor,
sufficient fuel and the main-type slot filled in the states that read it
either finishes normally or aborts: it neither panics (the
`cur_main_type.unwrap()` of src/mime_type_matcher.rs line 96 is guarded by
the state discipline) nor exhausts its fuel. -/
theorem mtLoop_cases (input wantMain wantSub : List Nat) :
    ∀ fuel (st : MtState) (curMain : Option (List Nat))
      (cur best : Option MimeTypeMatch) (isQ : Bool) (c : Nat),
      c ≤ input.length → input.length < c + fuel →
      ((st = .SeenMainType ∨ st = .SeenSlash) → curMain ≠ none) →
      (∃ r, mtLoop input wantMain wantSub fuel st curMain cur best isQ c = .finished r) ∨
      mtLoop input wantMain wantSub fuel st curMain cur best isQ c = .aborted := by
  intro fuel
  induction fuel with
  | zero => intro st curMain cur best isQ c hc hfuel _; omega
  | succ fuel ih =>
    intro st curMain cur best isQ c hc hfuel hinv
    rw [mtLoop.eq_def]
    simp only []
    by_cases heof : input.length ≤ c
    · rw [if_pos heof]
      exact Or.inl ⟨_, rfl⟩
    rw [if_neg heof]
    cases st <;> simp only []
    ·
      split
      next => exact Or.inr rfl
      next c1 htok =>
        obtain ⟨ht1, ht2⟩ := token_ok_bounds htok
        exact ih .SeenMainType _ cur best isQ c1 (by omega) (by omega) (fun _ => by simp)
    ·
      split
      next => exact Or.inr rfl
      next c1 hb =>
        obtain ⟨hb1, hb2⟩ := byte_ok_bounds hb
        exact ih .SeenSlash curMain cur best isQ c1 (by omega) (by omega)
          (fun _ => hinv (Or.inl rfl))
    ·
      split
      next => exact Or.inr rfl
      next c1 htok =>
        obtain ⟨ht1, ht2⟩ := token_ok_bounds htok
        split
        next => exact absurd rfl (hinv (Or.inr rfl))
        next mt =>
          exact ih .SeenSubType _ _ best isQ c1 (by omega) (by omega) (fun h => by simp at h)
    ·
      have howle := ows_le input c
      have howlen := ows_le_length input c (by omega)
      split
      next c2 hb =>
        obtain ⟨hb1, hb2⟩ := byte_ok_bounds hb
        have ho2 := ows_le input c2
        have ho2l := ows_le_length input c2 (by omega)
        exact ih .SeenSemicolon curMain cur best isQ (ows input c2) (by omega) (by omega)
          (fun h => by simp at h)
      next =>
        split
        next c2 hb2 =>
          obtain ⟨hb1, hb2'⟩ := byte_ok_bounds hb2
          have ho2 := ows_le input c2
          have ho2l := ows_le_length input c2 (by omega)
          exact ih .SearchingMainType curMain _ _ isQ (ows input c2) (by omega) (by omega)
            (fun h => by simp at h)
        next => exact Or.inr rfl
    ·
      split
      next => exact Or.inr rfl
      next c1 htok =>
        obtain ⟨ht1, ht2⟩ := token_ok_bounds htok
        exact ih .SeenParameterName curMain cur best _ c1 (by omega) (by omega)
          (fun h => by simp at h)
    ·
      split
      next => exact Or.inr rfl
      next c1 hbe =>
        obtain ⟨hb1, hb2⟩ := byte_ok_bounds hbe
        exact ih .SeenEqual curMain cur best isQ c1 (by omega) (by omega)
          (fun h => by simp at h)
    ·
      split
      next =>
        split
        next => exact Or.inr rfl
        next q c1 hmq =>
          obtain ⟨ha, hb⟩ := mime_q_value_some_bounds hmq
          exact ih .SeenParameterValue curMain _ best isQ c1 (by omega) (by omega)
            (fun h => by simp at h)
      next =>
        split
        next => exact Or.inr rfl
        next c1 halt =>
          obtain ⟨ha, hb⟩ := alt_token_quoted_ok_bounds halt
          exact ih .SeenParameterValue curMain cur best isQ c1 (by omega) (by omega)
            (fun h => by simp at h)
    ·
      have howle := ows_le input c
      have howlen := ows_le_length input c (by omega)
      split
      next c2 hb =>
        obtain ⟨hb1, hb2⟩ := byte_ok_bounds hb
        have ho2 := ows_le input c2
        have ho2l := ows_le_length input c2 (by omega)
        exact ih .SearchingMainType curMain _ _ isQ (ows input c2) (by omega) (by omega)
          (fun h => by simp at h)
      next =>
        split
        next c2 hb2 =>
          obtain ⟨hb1, hb2'⟩ := byte_ok_bounds hb2
          have ho2 := ows_le input c2
          have ho2l := ows_le_length input c2 (by omega)
          exact ih .SeenSemicolon curMain cur best isQ (ows input c2) (by omega) (by omega)
            (fun h => by simp at h)
        next => exact Or.inr rfl

/-! ### Lexicographic comparison lemmas -/

theorem then_cmp_gt (r1 r2 m1 m2 : Nat) :
    (compare r1 r2).then (compare m1 m2) = .gt ↔ r2 < r1 ∨ (r1 = r2 ∧ m2 < m1) := by
  rcases Nat.lt_trichotomy r1 r2 with h | h | h
  · rw [Nat.compare_eq_lt.mpr h]
    constructor
    · intro h2; exact absurd h2 (by simp [Ordering.then])
    · intro h2; omega
  · subst h
    rw [Nat.compare_eq_eq.mpr rfl]
    have hth : (Ordering.eq).then (compare m1 m2) = compare m1 m2 := rfl
    rw [hth, Nat.compare_eq_gt]
    omega
  · rw [Nat.compare_eq_gt.mpr h]
    have hth : (Ordering.gt).then (compare m1 m2) = .gt := rfl
    rw [hth]
    constructor
    · intro _; omega
    · intro _; rfl

theorem then_cmp_eq (r1 r2 m1 m2 : Nat) :
    (compare r1 r2).then (compare m1 m2) = .eq ↔ r1 = r2 ∧ m1 = m2 := by
  rcases Nat.lt_trichotomy r1 r2 with h | h | h
  · rw [Nat.compare_eq_lt.mpr h]
    constructor
    · intro h2; exact absurd h2 (by simp [Ordering.then])
    · intro h2; omega
  · subst h
    rw [Nat.compare_eq_eq.mpr rfl]
    have hth : (Ordering.eq).then (compare m1 m2) = compare m1 m2 := rfl
    rw [hth, Nat.compare_eq_eq]
    omega
  · rw [Nat.compare_eq_gt.mpr h]
    constructor
    · intro h2; exact absurd h2 (by simp [Ordering.then])
    · intro h2; omega

theorem encoding_rank_inj (t1 t2 : EncodingMatchType) :
    t1.rank = t2.rank ↔ t1 = t2 := by
  cases t1 <;> cases t2 <;> simp [EncodingMatchType.rank]

theorem mime_rank_inj (t1 t2 : MimeTypeMatchType) :
    t1.rank = t2.rank ↔ t1 = t2 := by
  cases t1 <;> cases t2 <;> simp [MimeTypeMatchType.rank]

/-! ### Claim theorems -/

/-- C1 (counterexample): the claim that trailing whitespace after a completed
alternative is accepted fails on the code: `match_for_encoding` on the text
`gzip` followed by a space returns `none`, not the Exact quality-1000 match it
returns on `gzip` alone. -/
theorem c1_counterexample :
    match_for_encoding gzipSpaceBytes gzipBytes = none ∧
    match_for_encoding gzipBytes gzipBytes = some ⟨.Exact, ⟨1000⟩⟩ := by
  constructor <;> rfl

/-- C1 (amended): in state `SeenEncoding` or `SeenParameterValue`, optional
whitespace followed by end-of-input is a hard parse failure — when every byte
from the cursor on is a space or tab (and at least one remains), the machine
returns the abort outcome, so the whole match is `None` rather than the
finalized best-so-far. -/
theorem c1_trailing_ws_aborts (input encoding : List Nat) (fuel : Nat)
    (st : EmState) (cur best : Option EncodingMatch) (isQ : Bool) (c : Nat)
    (hst : st = .SeenEncoding ∨ st = .SeenParameterValue)
    (hc : c < input.length)
    (hws : (input.drop c).all (fun b => b == 32 || b == 9) = true) :
    emLoop input encoding (fuel + 1) st cur best isQ c = .aborted := by
  have hows : ows input c = input.length := by
    unfold ows match_zero_or_more
    exact scan_while_go_consume_all _ input (input.length + 1) c (by omega) (by omega) hws
  rw [emLoop.eq_def]
  simp only []
  rw [if_neg (by omega)]
  rcases hst with h | h <;> subst h <;> simp only [] <;> rw [hows, if_pos (le_refl _)]

theorem c1_trailing_ws_aborts_witness :
    emLoop gzipSpaceBytes gzipBytes 1 .SeenEncoding none none false 4 = .aborted :=
  c1_trailing_ws_aborts gzipSpaceBytes gzipBytes 0 .SeenEncoding none none false 4
    (Or.inl rfl) (by decide) (by decide)

/-- C2 (counterexample): a header alternative carrying `q=0.8235` does not
yield a quality-823 match — `match_for_encoding` on `gzip;q=0.8235` returns
`none`. -/
theorem c2_counterexample :
    match_for_encoding qTruncHeaderBytes gzipBytes = none := by
  rfl

/-- C2 (amended): the q-value grammar consumes at most three fractional
digits — on the text `0.8235` it stops after `0.823` (cursor 5), whose
conversion is 823 thousandths, and `q=0`, `q=0.`, `q=0.8`, `q=0.82` parse to
0, 0, 800, 820 (truncation, not rounding) — but the unconsumed fourth digit
then fails the alternative's continuation, so the full header
`gzip;q=0.8235` yields no match while `gzip;q=0.823` yields 823/1000. -/
theorem c2_fourth_digit :
    q_value_raw qTruncTextBytes 0 = .ok 5 ∧
    QValue.try_from (slice qTruncTextBytes 0 5) = some ⟨823⟩ ∧
    QValue.try_from [48] = some ⟨0⟩ ∧
    QValue.try_from [48, 46] = some ⟨0⟩ ∧
    QValue.try_from [48, 46, 56] = some ⟨800⟩ ∧
    QValue.try_from [48, 46, 56, 50] = some ⟨820⟩ ∧
    match_for_encoding qTruncHeaderBytes gzipBytes = none ∧
    match_for_encoding qTrunc3HeaderBytes gzipBytes = some ⟨.Exact, ⟨823⟩⟩ := by
  refine ⟨?_, ?_, ?_, ?_, ?_, ?_, ?_, ?_⟩ <;> rfl

/-- C3: fail-closed parsing — on a header whose bytes fail the expected
production at some state (a space before the `=` of a parameter, or a
non-tchar byte after a comma), `match_for_encoding` returns `none` for every
wanted encoding, even though in the second header the alternative before the
malformed byte is a valid match on its own (third conjunct). -/
theorem c3_fail_closed :
    (∀ encoding : List Nat, match_for_encoding qSpaceHeaderBytes encoding = none) ∧
    (∀ encoding : List Nat, match_for_encoding gzipCommaAtBytes encoding = none) ∧
    match_for_encoding gzipBytes gzipBytes = some ⟨.Exact, ⟨1000⟩⟩ := by
  refine ⟨fun encoding => ?_, fun encoding => ?_, ?_⟩ <;> rfl

theorem c3_fail_closed_witness :
    match_for_encoding qSpaceHeaderBytes brBytes = none ∧
    match_for_encoding gzipCommaAtBytes gzipBytes = none :=
  ⟨c3_fail_closed.1 brBytes, c3_fail_closed.2.1 gzipBytes⟩

/-- C4: for all byte inputs (including non-ASCII and non-UTF-8 bytes) the
runs of `match_for_encoding` and `match_for_mime_type` never reach the
`panicked` outcome: the `str::from_utf8(..).unwrap()` and
`QValue::try_from(..).unwrap()` on the slice consumed by the q-value lexer,
and the `cur_main_type.unwrap()` of the media-type matcher, never hit their
error branch. -/
theorem c4_never_panics (input encoding mime_type : List Nat) :
    match_for_encoding_run input encoding ≠ .panicked ∧
    match_for_mime_type_run input mime_type ≠ .panicked := by
  constructor
  · unfold match_for_encoding_run
    rcases emLoop_cases input encoding (input.length + 1) .SearchingEncoding
        none none false 0 (by omega) (by omega) with ⟨r, hr⟩ | hab
    · rw [hr]; simp
    · rw [hab]; simp
  · unfold match_for_mime_type_run
    split
    · simp
    next p hsplit =>
      rcases mtLoop_cases input p.1 p.2 (input.length + 1) .SearchingMainType
          none none none false 0 (by omega) (by omega)
          (fun h => by rcases h with h | h <;> exact absurd h (by simp)) with ⟨r, hr⟩ | hab
      · rw [hr]; simp
      · rw [hab]; simp

theorem c4_never_panics_witness :
    match_for_encoding_run [255, 0, 128] gzipBytes ≠ .panicked ∧
    match_for_mime_type_run [255, 0, 128] imageWebpBytes ≠ .panicked :=
  c4_never_panics [255, 0, 128] gzipBytes imageWebpBytes

/-- C5: at every finalize point best-so-far is replaced by the current
candidate exactly when the current candidate compares strictly greater under
the option order with `None` below every `Some` (ties keep the existing
best), for both matchers; consequently on `br  ; q=0.9 , gzip;q=0.8` the
query `gzip` gives Exact 800/1000, the query `br` gives Exact 900/1000, and
the `br` result compares greater. -/
theorem c5_best_update :
    (∀ cur best : Option EncodingMatch,
      (encodingOptCmp cur best = .gt → may_update_best_result cur best = (none, cur)) ∧
      (encodingOptCmp cur best ≠ .gt → may_update_best_result cur best = (cur, best))) ∧
    (∀ x : EncodingMatch,
      encodingOptCmp (some x) none = .gt ∧
      encodingOptCmp none (some x) = .lt ∧
      encodingOptCmp none none = .eq) ∧
    (∀ cur best : Option MimeTypeMatch,
      (mimeOptCmp cur best = .gt → mime_may_update_best_result cur best = (none, cur)) ∧
      (mimeOptCmp cur best ≠ .gt → mime_may_update_best_result cur best = (cur, best))) ∧
    match_for_encoding c5HeaderBytes gzipBytes = some ⟨.Exact, ⟨800⟩⟩ ∧
    match_for_encoding c5HeaderBytes brBytes = some ⟨.Exact, ⟨900⟩⟩ ∧
    EncodingMatch.cmp ⟨.Exact, ⟨900⟩⟩ ⟨.Exact, ⟨800⟩⟩ = .gt := by
  refine ⟨?_, ?_, ?_, rfl, rfl, by decide⟩
  · intro cur best
    constructor
    · intro h; unfold may_update_best_result; rw [if_pos h]
    · intro h; unfold may_update_best_result; rw [if_neg h]
  · intro x; exact ⟨rfl, rfl, rfl⟩
  · intro cur best
    constructor
    · intro h; unfold mime_may_update_best_result; rw [if_pos h]
    · intro h; unfold mime_may_update_best_result; rw [if_neg h]

theorem c5_best_update_witness :
    may_update_best_result (some ⟨.Exact, ⟨1000⟩⟩) none =
      (none, some ⟨.Exact, ⟨1000⟩⟩) :=
  (c5_best_update.1 (some ⟨.Exact, ⟨1000⟩⟩) none).1 (by decide)

/-- C6: the order on match results is lexicographic — `a.cmp b = gt` iff
`a`'s kind is greater in declaration order, or the kinds are equal and `a`'s
quality is greater; an Exact encoding match outranks a Wildcard regardless of
quality; for media types MainTypeWildcard < SubTypeWildcard < Exact; two
results compare equal exactly when they are equal. -/
theorem c6_result_order :
    (∀ a b : EncodingMatch,
      (EncodingMatch.cmp a b = .gt ↔
        b.match_type.rank < a.match_type.rank ∨
          (a.match_type = b.match_type ∧ b.q.millis < a.q.millis)) ∧
      (EncodingMatch.cmp a b = .eq ↔ a = b)) ∧
    (∀ q1 q2 : QValue, EncodingMatch.cmp ⟨.Exact, q1⟩ ⟨.Wildcard, q2⟩ = .gt) ∧
    (∀ a b : MimeTypeMatch,
      (MimeTypeMatch.cmp a b = .gt ↔
        b.match_type.rank < a.match_type.rank ∨
          (a.match_type = b.match_type ∧ b.q.millis < a.q.millis)) ∧
      (MimeTypeMatch.cmp a b = .eq ↔ a = b)) ∧
    (∀ q : QValue,
      MimeTypeMatch.cmp ⟨.SubTypeWildcard, q⟩ ⟨.MainTypeWildcard, q⟩ = .gt ∧
      MimeTypeMatch.cmp ⟨.Exact, q⟩ ⟨.SubTypeWildcard, q⟩ = .gt ∧
      MimeTypeMatch.cmp ⟨.Exact, q⟩ ⟨.MainTypeWildcard, q⟩ = .gt) := by
  refine ⟨?_, ?_, ?_, ?_⟩
  · intro a b
    obtain ⟨ta, ⟨ma⟩⟩ := a
    obtain ⟨tb, ⟨mb⟩⟩ := b
    constructor
    · simp only [EncodingMatch.cmp]
      rw [then_cmp_gt, encoding_rank_inj]
    · simp only [EncodingMatch.cmp]
      rw [then_cmp_eq, encoding_rank_inj]
      simp [EncodingMatch.mk.injEq, QValue.mk.injEq]
  · intro q1 q2
    obtain ⟨m1⟩ := q1
    obtain ⟨m2⟩ := q2
    exact (then_cmp_gt 1 0 m1 m2).mpr (Or.inl (by omega))
  · intro a b
    obtain ⟨ta, ⟨ma⟩⟩ := a
    obtain ⟨tb, ⟨mb⟩⟩ := b
    constructor
    · simp only [MimeTypeMatch.cmp]
      rw [then_cmp_gt, mime_rank_inj]
    · simp only [MimeTypeMatch.cmp]
      rw [then_cmp_eq, mime_rank_inj]
      simp [MimeTypeMatch.mk.injEq, QValue.mk.injEq]
  · intro q
    obtain ⟨m⟩ := q
    exact ⟨(then_cmp_gt 1 0 m m).mpr (Or.inl (by omega)),
      (then_cmp_gt 2 1 m m).mpr (Or.inl (by omega)),
      (then_cmp_gt 2 0 m m).mpr (Or.inl (by omega))⟩

/-- C7: media-range classification — `*` over `*` is MainTypeWildcard; a
non-`*` main type equal (ASCII case-insensitively) to the wanted main type
gives Exact when the subtypes are also case-insensitively equal, else
SubTypeWildcard when the subtype is literally `*` (byte-exact comparison);
every other combination gives no match for the alternative while parsing
continues to later comma-separated alternatives (the concrete header
`*/html, image/webp` still matches `image/webp` exactly). -/
theorem c7_media_classification :
    (∀ mt st wmt wst : List Nat,
      (get_mime_type_match_type mt st wmt wst = some .MainTypeWildcard ↔
        mt = starBytes ∧ st = starBytes) ∧
      (get_mime_type_match_type mt st wmt wst = some .Exact ↔
        mt ≠ starBytes ∧ bytes_eq_ignore_case mt wmt = true ∧
          bytes_eq_ignore_case st wst = true) ∧
      (get_mime_type_match_type mt st wmt wst = some .SubTypeWildcard ↔
        mt ≠ starBytes ∧ bytes_eq_ignore_case mt wmt = true ∧
          bytes_eq_ignore_case st wst = false ∧ st = starBytes)) ∧
    match_for_mime_type starHtmlHeaderBytes imageWebpBytes = some ⟨.Exact, ⟨1000⟩⟩ := by
  constructor
  · intro mt st wmt wst
    unfold get_mime_type_match_type
    split_ifs with h1 h2 h3 h4 h5 <;> simp_all [beq_iff_eq]
  · rfl

theorem c7_media_classification_witness :
    get_mime_type_match_type starBytes starBytes imageWebpBytes imageWebpBytes =
      some .MainTypeWildcard :=
  ((c7_media_classification.1 starBytes starBytes imageWebpBytes imageWebpBytes).1).mpr
    ⟨rfl, rfl⟩

/-- C8: in `SearchingEncoding`, a token classifies Exact with default quality
1000/1000 when it equals the wanted encoding ASCII case-insensitively, or the
wanted name is gzip and the token is x-gzip, or the wanted name is compress
and the token is x-compress; otherwise a token of exactly `*` classifies
Wildcard, and anything else does not match; concretely
`match_for_encoding("x-Gzip; q=0.8", "gzip")` is Exact 800/1000. -/
theorem c8_encoding_classification :
    (∀ tok encoding : List Nat,
      ((bytes_eq_ignore_case tok encoding ||
          (bytes_eq_ignore_case encoding gzipBytes && bytes_eq_ignore_case tok xGzipBytes) ||
          (bytes_eq_ignore_case encoding compressBytes &&
            bytes_eq_ignore_case tok xCompressBytes)) = true →
        classifyEncoding tok encoding = some ⟨.Exact, ⟨1000⟩⟩) ∧
      ((bytes_eq_ignore_case tok encoding ||
          (bytes_eq_ignore_case encoding gzipBytes && bytes_eq_ignore_case tok xGzipBytes) ||
          (bytes_eq_ignore_case encoding compressBytes &&
            bytes_eq_ignore_case tok xCompressBytes)) = false →
        tok = starBytes →
        classifyEncoding tok encoding = some ⟨.Wildcard, ⟨1000⟩⟩)) ∧
    match_for_encoding xGzipHeaderBytes gzipBytes = some ⟨.Exact, ⟨800⟩⟩ ∧
    match_for_encoding xCompressHeaderBytes compressBytes = some ⟨.Exact, ⟨800⟩⟩ ∧
    match_for_encoding starBytes gzipBytes = some ⟨.Wildcard, ⟨1000⟩⟩ := by
  refine ⟨?_, rfl, rfl, rfl⟩
  intro tok encoding
  constructor
  · intro h
    unfold classifyEncoding
    rw [if_pos h]
  · intro h hstar
    unfold classifyEncoding
    rw [if_neg (by simp [h]), if_pos (by simp [hstar])]

theorem c8_encoding_classification_witness :
    classifyEncoding xGzipBytes gzipBytes = some ⟨.Exact, ⟨1000⟩⟩ ∧
    classifyEncoding starBytes gzipBytes = some ⟨.Wildcard, ⟨1000⟩⟩ :=
  ⟨(c8_encoding_classification.1 xGzipBytes gzipBytes).1 (by decide),
    (c8_encoding_classification.1 starBytes gzipBytes).2 (by decide) rfl⟩

/-- C9: both matchers terminate on every input — with the supplied fuel
`input.length + 1` (one unit per loop iteration, each of which consumes at
least one byte) no run reaches the `fuelOut` outcome, so
`match_for_encoding` and `match_for_mime_type` are total functions of their
inputs. -/
theorem c9_terminates (input encoding mime_type : List Nat) :
    match_for_encoding_run input encoding ≠ .fuelOut ∧
    match_for_mime_type_run input mime_type ≠ .fuelOut := by
  constructor
  · unfold match_for_encoding_run
    rcases emLoop_cases input encoding (input.length + 1) .SearchingEncoding
        none none false 0 (by omega) (by omega) with ⟨r, hr⟩ | hab
    · rw [hr]; simp
    · rw [hab]; simp
  · unfold match_for_mime_type_run
    split
    · simp
    next p hsplit =>
      rcases mtLoop_cases input p.1 p.2 (input.length + 1) .SearchingMainType
          none none none false 0 (by omega) (by omega)
          (fun h => by rcases h with h | h <;> exact absurd h (by simp)) with ⟨r, hr⟩ | hab
      · rw [hr]; simp
      · rw [hab]; simp

theorem c9_terminates_witness :
    match_for_encoding_run c5HeaderBytes gzipBytes ≠ .fuelOut ∧
    match_for_mime_type_run starHtmlHeaderBytes imageWebpBytes ≠ .fuelOut := by
  constructor
  · exact (c9_terminates c5HeaderBytes gzipBytes imageWebpBytes).1
  · exact (c9_terminates starHtmlHeaderBytes gzipBytes imageWebpBytes).2

/-- C10: at the public interface, an empty header value, or one whose first
byte is not a tchar, yields `none` for every wanted encoding; space and tab
are not tchars, so leading whitespace is not skipped (` gzip` never matches),
unlike the whitespace after commas (`gzip,  br` matches `br` exactly). -/
theorem c10_no_leading_ws_skip :
    (∀ encoding : List Nat, match_for_encoding [] encoding = none) ∧
    (∀ (encoding : List Nat) (b : Nat) (rest : List Nat), is_tchar b = false →
      match_for_encoding (b :: rest) encoding = none) ∧
    is_tchar 32 = false ∧ is_tchar 9 = false ∧
    (∀ encoding : List Nat, match_for_encoding spaceGzipBytes encoding = none) ∧
    match_for_encoding gzipCommaBrBytes brBytes = some ⟨.Exact, ⟨1000⟩⟩ := by
  have hgen : ∀ (encoding : List Nat) (b : Nat) (rest : List Nat), is_tchar b = false →
      match_for_encoding (b :: rest) encoding = none := by
    intro encoding b rest htchar
    have htok : token (b :: rest) 0 = .err 0 := by
      unfold token match_one_or_more match_zero_or_more
      rw [scan_while_go]
      simp [htchar]
    unfold match_for_encoding match_for_encoding_run
    rw [emLoop.eq_def]
    simp [htok]
  exact ⟨fun _ => rfl, hgen, by decide, by decide,
    fun encoding => hgen encoding 32 gzipBytes (by decide), by rfl⟩

theorem c10_no_leading_ws_skip_witness :
    match_for_encoding [47, 103] gzipBytes = none :=
  c10_no_leading_ws_skip.2.1 gzipBytes 47 [103] (by decide)

end AcceptEncoding
